import Mathlib

/-!
Verification development for the huawei-mqtt-publisher add-on
(`src/huawei-mqtt-publisher/main.py` and
`src/huawei-mqtt-publisher/huawei_mqtt.py`).

The Python sources are shallowly embedded: each relevant Python function
becomes a Lean definition over explicit state (the last-value cache, the
scheduler counters, the backoff variable), and side effects (MQTT
publishes, sleeps, reconnect calls) become explicit event lists or
counters in the return value.
-/

/-- A Python numeric value as used by `_changed` in `main.py`:
either a finite number (int or float, modelled as a rational) or the
IEEE not-a-number value. -/
inductive NumVal where
  | fin (q : ℚ)
  | nan
deriving DecidableEq, Repr

/-- A Python value flowing through `_safe_read_and_publish`: a numeric
value (`isinstance(v, (int, float))` true) or a non-numeric one,
modelled as a string. -/
inductive PyVal where
  | num (v : NumVal)
  | str (s : String)
deriving DecidableEq, Repr

/-- `math.isnan(float(x))` for a numeric value. -/
def NumVal.isnan : NumVal → Bool
  | .fin _ => false
  | .nan => true

/-- Python `isinstance(v, (int, float))`. -/
def PyVal.isNumeric : PyVal → Bool
  | .num _ => true
  | .str _ => false

/-- Python equality `a == b` on the embedded values: NaN compares
unequal to everything including itself, and values of different kinds
compare unequal. -/
def pyEq : PyVal → PyVal → Bool
  | .num (.fin a), .num (.fin b) => a == b
  | .str a, .str b => a == b
  | _, _ => false

/-- Python built-in `abs` on a rational, written executably. -/
def pyAbs (x : ℚ) : ℚ := if x < 0 then -x else x

theorem pyAbs_eq_abs (x : ℚ) : pyAbs x = |x| := by
  unfold pyAbs
  rcases lt_or_le x 0 with h | h
  · simp [h, abs_of_neg h]
  · simp [not_lt.mpr h, abs_of_nonneg h]

/-- Python `abs(float(new) - float(old)) >= eps`: any comparison with a
NaN operand is false. -/
def absDiffGe (eps : ℚ) : NumVal → NumVal → Bool
  | .fin a, .fin b => decide (eps ≤ pyAbs (a - b))
  | _, _ => false

/-- The `_last_values` dict of `main.py`, threaded explicitly. -/
def Cache := List (String × PyVal)

/-- Dict membership / lookup (`name in _last_values`, `_last_values[name]`). -/
def cacheGet : Cache → String → Option PyVal
  | [], _ => none
  | (k, v) :: rest, name => if k = name then some v else cacheGet rest name

/-- Dict assignment `_last_values[name] = new_val`. -/
def cacheSet : Cache → String → PyVal → Cache
  | [], name, v => [(name, v)]
  | (k, w) :: rest, name, v =>
      if k = name then (k, v) :: rest else (k, w) :: cacheSet rest name v

/-- `_changed(name, new_val)` from `main.py` lines 262-280, returning the
boolean result together with the updated cache.  The Python numeric
branch is guarded by `isinstance` on both values; the fallthrough
`new_val != old` branch is therefore reached exactly when at least one
of the two values is non-numeric. -/
def _changed (eps : ℚ) (c : Cache) (name : String) (new_val : PyVal) : Bool × Cache :=
  match cacheGet c name with
  | none => (true, cacheSet c name new_val)
  | some old =>
    match new_val, old with
    | .num nv, .num ov =>
        if nv.isnan && ov.isnan then (false, c)
        else if absDiffGe eps nv ov then (true, cacheSet c name (.num nv))
        else (false, c)
    | _, _ =>
        if pyEq new_val old then (false, c) else (true, cacheSet c name new_val)

example : (_changed (1/1000) [] "k" (.num (.fin 5))).1 = true := by
  simp [_changed, cacheGet]
example : (_changed (1/1000) [("k", .num (.fin 5))] "k" (.num (.fin 5))).1 = false := by
  simp [_changed, cacheGet, absDiffGe, pyAbs, NumVal.isnan]
  norm_num
example : (_changed (1/1000) [("k", .num .nan)] "k" (.num .nan)).1 = false := by
  simp [_changed, cacheGet, absDiffGe, NumVal.isnan]
example : (_changed (1/1000) [("k", .num .nan)] "k" (.num (.fin 3))).1 = false := by
  simp [_changed, cacheGet, absDiffGe, NumVal.isnan]
example : (_changed (1/1000) [("k", .str "a")] "k" (.str "b")).1 = true := by
  simp [_changed, cacheGet, pyEq]

/-- Python string representation used for published payloads
(`str(val)`); the exact decimal rendering of floats is irrelevant to
every claim, so rationals are rendered by their canonical form. -/
def pyStr : PyVal → String
  | .num (.fin q) => toString q
  | .num .nan => "nan"
  | .str s => s

/-- Character-list version of Python string containment: is `pat` a
leading block of `s`? -/
def isPrefixChars : List Char → List Char → Bool
  | [], _ => true
  | _ :: _, [] => false
  | a :: as, b :: bs => a == b && isPrefixChars as bs

/-- Does `pat` occur contiguously anywhere in the character list? -/
def occursIn (pat : List Char) : List Char → Bool
  | [] => pat.isEmpty
  | c :: rest => isPrefixChars pat (c :: rest) || occursIn pat rest

/-- Python `pat in msg` on strings. -/
def strContains (msg pat : String) : Bool := occursIn pat.data msg.data

/-- `_CONFLICT_PATTERNS` from `main.py` lines 289-294. -/
def _CONFLICT_PATTERNS : List String :=
  [ "request ask for transaction_id",
    "Cancel send, because not connected",
    "No response received after 3 retries",
    "ConnectionInterruptedException" ]

/-- `any(pat in msg for pat in _CONFLICT_PATTERNS)` from
`_safe_read_and_publish`. -/
def suspectedConflict (msg : String) : Bool :=
  _CONFLICT_PATTERNS.any fun pat => strContains msg pat

/-- One MQTT publish as observed by the broker client. -/
structure PubEvent where
  topic : String
  payload : String
  qos : ℕ
  retain : Bool
deriving DecidableEq, Repr

/-- Topic namespace used by `main.py` (default argument of
`_safe_read_and_publish`). -/
def topicRoot : String := "inverter/Huawei/"

/-- Default `MQTT_QOS` (env default 1) used by `_publish`. -/
def MQTT_QOS : ℕ := 1

/-- `_safe_read_and_publish(mode, hclient, mqttc, key)` from `main.py`
lines 296-320.  The device read is abstracted as its outcome: `.ok v`
when `_read_register` returns value `v`, `.error msg` when it raises an
exception with text `msg`.  The function returns the pair
`(ok_lectura, sospecha_conflicto)` exactly as the Python does, plus the
updated cache and the list of publishes performed.  `changedOnly`
is the `PUBLISH_CHANGED_ONLY` flag. -/
def _safe_read_and_publish (eps : ℚ) (changedOnly : Bool) (c : Cache) (key : String)
    (readResult : Except String PyVal) : (Bool × Bool) × Cache × List PubEvent :=
  match readResult with
  | .ok val =>
      let topic := topicRoot ++ key
      if changedOnly then
        let r := _changed eps c key val
        if r.1 then ((true, false), r.2, [⟨topic, pyStr val, MQTT_QOS, false⟩])
        else ((true, false), r.2, [])
      else
        ((true, false), c, [⟨topic, pyStr val, MQTT_QOS, false⟩])
  | .error msg => ((false, suspectedConflict msg), c, [])

/-- Processing of one list of keys inside a poll cycle (`for key in
VARS_IMMEDIATE: ...` / `for key in VARS_PERIODIC: ...`): every key is
read in order via `_safe_read_and_publish`, the per-key results are
collected, and the cycle never stops early.  Each key comes paired with
its read outcome for this cycle. -/
def processKeys (eps : ℚ) (changedOnly : Bool) (c : Cache) :
    List (String × Except String PyVal) → Cache × List (Bool × Bool) × List PubEvent
  | [] => (c, [], [])
  | (key, r) :: rest =>
      let step := _safe_read_and_publish eps changedOnly c key r
      let tail := processKeys eps changedOnly step.2.1 rest
      (tail.1, step.1 :: tail.2.1, step.2.2 ++ tail.2.2)

/-- Repeated successful reads of one key with `PUBLISH_CHANGED_ONLY`
enabled, folding the cache through `_safe_read_and_publish`; returns
the final cache and every publish performed. -/
def runKeyReads (eps : ℚ) (c : Cache) (key : String) :
    List PyVal → Cache × List PubEvent
  | [] => (c, [])
  | v :: rest =>
      let step := _safe_read_and_publish eps true c key (.ok v)
      let tail := runKeyReads eps step.2.1 key rest
      (tail.1, step.2.2 ++ tail.2)

/-- Counters of `main()` in `main.py` that the per-read bookkeeping
touches: the consecutive-failure counter, the per-cycle and total
success/failure counters, and the number of `_reconnect_huawei` calls
performed so far. -/
structure SchedState where
  consecutive_fail_reads : ℕ
  ok : ℕ
  fail : ℕ
  reconnects : ℕ
deriving DecidableEq, Repr

/-- `FAIL_RECONNECT_THRESHOLD` from `main.py` line 349. -/
def FAIL_RECONNECT_THRESHOLD : ℕ := 6

/-- The bookkeeping `main()` performs after each `_safe_read_and_publish`
call (identical in the immediate and the periodic loop, `main.py` lines
358-373 and 380-394): update the counters according to `okread`, then,
if the consecutive-failure counter has reached the threshold, call
`_reconnect_huawei` and reset the counter to zero. -/
def afterRead (threshold : ℕ) (s : SchedState) (okread : Bool) : SchedState :=
  let s1 :=
    if okread then
      { s with ok := s.ok + 1, consecutive_fail_reads := 0 }
    else
      { s with fail := s.fail + 1,
               consecutive_fail_reads := s.consecutive_fail_reads + 1 }
  if threshold ≤ s1.consecutive_fail_reads then
    { s1 with reconnects := s1.reconnects + 1, consecutive_fail_reads := 0 }
  else s1

/-- A whole sequence of reads folded through `afterRead`. -/
def afterReads (threshold : ℕ) (s : SchedState) (outcomes : List Bool) : SchedState :=
  outcomes.foldl (afterRead threshold) s

/-- The keys read during one poll cycle of `main()` and the next value of
`periodic_tick`: the immediate list is always read first in configured
order, then `periodic_tick` is incremented and, if it reached
`PERIODIC_EVERY` (`n` here), the periodic list is read in configured
order and the tick resets to zero (`main.py` lines 357-396). -/
def cycleKeys (imm per : List String) (n tick : ℕ) : List String × ℕ :=
  let t := tick + 1
  if n ≤ t then (imm ++ per, 0) else (imm, t)

/-- The per-cycle read lists produced by `m` successive poll cycles of
`main()`, starting with the given `periodic_tick` value. -/
def schedTrace (imm per : List String) (n : ℕ) : ℕ → ℕ → List (List String)
  | _, 0 => []
  | tick, m + 1 =>
      let c := cycleKeys imm per n tick
      c.1 :: schedTrace imm per n c.2 m

/-- Number of reads of key `k` in a list of cycle read-lists. -/
def countReads (k : String) : List (List String) → ℕ
  | [] => 0
  | c :: rest => c.count k + countReads k rest

/-- The sleeps executed between the end of one poll cycle's reads and the
start of the next cycle (`main.py` lines 398-420): if at least one
conflict was flagged this cycle, sleep `COOLDOWN_ON_CONFLICT_S`; then,
unconditionally, sleep `READ_INTERVAL`. -/
def cycleEndSleeps (cooldown interval : ℚ) (cycle_conflicts : ℕ) : List ℚ :=
  (if 0 < cycle_conflicts then [cooldown] else []) ++ [interval]

/-- The retry-delay update of `huawei_mqtt.py` (`backoff = min(backoff *
2, 60)`, lines 217, 294, 383). -/
def nextBackoff (b : ℕ) : ℕ := min (b * 2) 60

/-- The delay slept before the `n`-th retry in the unbounded connect
loops of `huawei_mqtt.py`: `backoff` starts at 1 and is doubled (capped
at 60) after every failure. -/
def backoffSeq : ℕ → ℕ
  | 0 => 1
  | n + 1 => nextBackoff (backoffSeq n)

/-- The current delay after processing a success/failure history
(`true` = attempt succeeded): a failure doubles the delay (capped), a
success resets it to the minimum 1, as in `main()` of
`huawei_mqtt.py` lines 374-386. -/
def delayTrace (d : ℕ) : List Bool → ℕ
  | [] => d
  | okr :: rest => delayTrace (if okr then 1 else nextBackoff d) rest

/-- The fixed retry-delay tuple `(1,2,4,8,16,30)` iterated by
`mqtt_connect_blocking` and `_connect_huawei_sync` in `main.py`. -/
def mainBackoffs : List ℕ := [1, 2, 4, 8, 16, 30]

/-- Boolean check that a delay list is non-decreasing, at most doubling
step to step, and contained in `[1, 60]`. -/
def backoffListOk : List ℕ → Bool
  | [] => true
  | [d] => 1 ≤ d && d ≤ 60
  | d :: e :: rest =>
      1 ≤ d && d ≤ 60 && d ≤ e && e ≤ d * 2 && backoffListOk (e :: rest)

/-- The finite retry loop shared by `mqtt_connect_blocking` (`main.py`
lines 187-203) and `_connect_huawei_sync` (lines 206-216): one connect
attempt per element of the delay tuple; the first successful attempt
returns its index, and exhausting the tuple raises `RuntimeError`
(modelled as `.error ()`).  `outcome i` tells whether the `i`-th attempt
(0-based) succeeds. -/
def tryConnectFinite (outcome : ℕ → Bool) : List ℕ → ℕ → Except Unit ℕ
  | [], _ => .error ()
  | _ :: rest, i => if outcome i then .ok i else tryConnectFinite outcome rest (i + 1)

/-- `mqtt_connect_blocking` from `main.py`, reduced to its control flow
over attempt outcomes. -/
def mqtt_connect_blocking (outcome : ℕ → Bool) : Except Unit ℕ :=
  tryConnectFinite outcome mainBackoffs 0

/-- `_connect_huawei_sync` from `main.py`, reduced to its control flow
over attempt outcomes: the same finite loop over the same delay tuple. -/
def _connect_huawei_sync (outcome : ℕ → Bool) : Except Unit ℕ :=
  tryConnectFinite outcome mainBackoffs 0

/-- The unbounded connect loops of `huawei_mqtt.py`
(`_connect_mqtt_with_retries` lines 202-217 and
`_connect_huawei_with_retries` lines 225-294): keep attempting until an
attempt succeeds, doubling the capped backoff after each failure.
`fuel` bounds how many attempts we unroll; the loop itself has no bound
(it runs `while not shutdown_event.is_set()`).  Returns the index of
the successful attempt and the backoff value current at that point. -/
def connectLoopFuel (outcome : ℕ → Bool) : ℕ → ℕ → ℕ → Option (ℕ × ℕ)
  | _, _, 0 => none
  | b, i, fuel + 1 =>
      if outcome i then some (i, b)
      else connectLoopFuel outcome (nextBackoff b) (i + 1) fuel

/-- An event on the broker client: registration of the last-will message
(`will_set`) or an actual publish. -/
inductive BrokerEvent where
  | willSet (e : PubEvent)
  | publish (e : PubEvent)
deriving DecidableEq, Repr

/-- The status topic used by both programs. -/
def statusTopic : String := "inverter/Huawei/status"

/-- The health topic used by both programs. -/
def healthTopic : String := "inverter/Huawei/health"

/-- The broker events of `main.py`'s `mqtt_connect_blocking` (lines
177-203) as a function of the attempt outcomes: `make_mqtt` registers
the retained last-will `"offline"` before any connect attempt; a failed
attempt publishes nothing; the successful attempt publishes the
retained status `"online ✅"` followed by a QoS-0 health message whose
JSON rendering is abstracted as `healthPayload`. -/
def mqtt_connect_blocking_events (outcome : ℕ → Bool) (healthPayload : String) :
    List BrokerEvent :=
  .willSet ⟨statusTopic, "offline", 1, true⟩ ::
    (match mqtt_connect_blocking outcome with
     | .ok _ =>
         [.publish ⟨statusTopic, "online ✅", 1, true⟩,
          .publish ⟨healthTopic, healthPayload, 0, false⟩]
     | .error _ => [])

/-- The publishes of the retry loop of `_connect_mqtt_with_retries` in
`huawei_mqtt.py` (lines 202-217): failed or timed-out attempts publish
nothing; the first attempt whose liveness flag comes up publishes the
retained status `"online"` and the loop returns. -/
def hmRetryPublishes (outcome : ℕ → Bool) : ℕ → ℕ → List BrokerEvent
  | _, 0 => []
  | i, fuel + 1 =>
      if outcome i then [.publish ⟨statusTopic, "online", 1, true⟩]
      else hmRetryPublishes outcome (i + 1) fuel

/-- The broker events of `_connect_mqtt_with_retries` in
`huawei_mqtt.py` (lines 180-217): the retained last-will `"offline"` is
registered before the connect loop starts, then the loop's publishes
follow. -/
def _connect_mqtt_with_retries_events (outcome : ℕ → Bool) (fuel : ℕ) :
    List BrokerEvent :=
  .willSet ⟨statusTopic, "offline", 1, true⟩ :: hmRetryPublishes outcome 0 fuel

/-- The status publish performed by the `finally` block of `_run_once`
in `huawei_mqtt.py` (lines 352-359) on graceful shutdown. -/
def _run_once_shutdown_events : List BrokerEvent :=
  [.publish ⟨statusTopic, "offline", 1, true⟩]

/-- The status publishes performed by `main.py` on graceful shutdown
(the `KeyboardInterrupt` handler, lines 422-427): it only logs, so no
broker event is emitted. -/
def mainShutdownEvents : List BrokerEvent := []

/-- State of the lock file used by `acquire_lock` in `main.py` (lines
124-135): who currently holds the `flock`, and the pid recorded in the
file's content. -/
structure LockFileState where
  holder : Option ℕ
  recorded : Option ℕ
deriving DecidableEq, Repr

/-- Result of `acquire_lock`: either the process terminates via
`sys.exit(code)` or it holds the lock with the resulting file state. -/
inductive LockResult where
  | exited (code : ℕ)
  | acquired (st : LockFileState)
deriving DecidableEq, Repr

/-- `acquire_lock(path)` from `main.py` lines 124-135: a non-blocking
exclusive `flock`; if any other process holds it, `BlockingIOError` is
caught and the process exits with status 1 — there is no retry (the
function contains no loop).  On success the process pid is written into
the file and the descriptor is kept (module-level `LOCK_FD`) for the
process lifetime; no code path in `main.py` ever releases it. -/
def acquire_lock (st : LockFileState) (pid : ℕ) : LockResult :=
  match st.holder with
  | some _ => .exited 1
  | none => .acquired { holder := some pid, recorded := some pid }

/-! ### Helper lemmas about the Change Detector -/

theorem changed_miss (eps : ℚ) (c : Cache) (name : String) (v : PyVal)
    (h : cacheGet c name = none) :
    _changed eps c name v = (true, cacheSet c name v) := by
  unfold _changed
  rw [h]

theorem changed_num (eps : ℚ) (c : Cache) (name : String) (nv ov : NumVal)
    (h : cacheGet c name = some (.num ov)) :
    _changed eps c name (.num nv) =
      (absDiffGe eps nv ov,
       if absDiffGe eps nv ov then cacheSet c name (.num nv) else c) := by
  unfold _changed
  rw [h]
  cases nv with
  | fin a =>
      cases ov with
      | fin b =>
          simp only [NumVal.isnan, Bool.false_and, if_false, Bool.false_eq_true]
          split <;> simp_all
      | nan => simp [NumVal.isnan, absDiffGe]
  | nan =>
      cases ov with
      | fin b => simp [NumVal.isnan, absDiffGe]
      | nan => simp [NumVal.isnan, absDiffGe]

theorem changed_nonnum (eps : ℚ) (c : Cache) (name : String) (v old : PyVal)
    (h : cacheGet c name = some old)
    (hno : v.isNumeric = false ∨ old.isNumeric = false) :
    _changed eps c name v =
      (!(pyEq v old), if pyEq v old then c else cacheSet c name v) := by
  unfold _changed
  rw [h]
  cases v with
  | num nv =>
      cases old with
      | num ov => simp [PyVal.isNumeric] at hno
      | str s => simp [pyEq]
  | str s =>
      cases old with
      | num ov =>
          cases ov <;> simp [pyEq]
      | str t =>
          by_cases he : s = t <;> simp [pyEq, he]

theorem changed_cache_update (eps : ℚ) (c : Cache) (name : String) (v : PyVal) :
    (_changed eps c name v).2 =
      if (_changed eps c name v).1 then cacheSet c name v else c := by
  rcases hg : cacheGet c name with _ | old
  · rw [changed_miss eps c name v hg]
    simp
  · cases v with
    | num nv =>
        cases old with
        | num ov =>
            rw [changed_num eps c name nv ov hg]
        | str s =>
            rw [changed_nonnum eps c name (.num nv) (.str s) hg (Or.inr rfl)]
            by_cases hpe : pyEq (.num nv) (.str s) = true <;> simp [hpe]
    | str s =>
        have hno : (PyVal.str s).isNumeric = false ∨ old.isNumeric = false :=
          Or.inl rfl
        rw [changed_nonnum eps c name (.str s) old hg hno]
        by_cases hpe : pyEq (.str s) old = true <;> simp [hpe]

theorem changed_nan_cache (eps : ℚ) (c : Cache) (name : String) (nv : NumVal)
    (h : cacheGet c name = some (.num .nan)) :
    _changed eps c name (.num nv) = (false, c) := by
  rw [changed_num eps c name nv .nan h]
  cases nv <;> simp [absDiffGe]

/-! ### Claim theorems about the Change Detector -/

/-- C2: `_changed(key, v)` equals the reference policy: the first
observation of a key returns true (and creates the cache entry); for
two numeric values it returns true iff `|new - old| >= CHANGE_EPS`
(where a comparison involving NaN is false, so two NaNs are not
"changed"); for non-numeric values it returns true iff the new value is
not identical to the cached one; and the cache entry is updated exactly
when the function returns true. -/
theorem changed_reference_policy (eps : ℚ) (c : Cache) (name : String) :
    (∀ v, cacheGet c name = none →
        _changed eps c name v = (true, cacheSet c name v)) ∧
    (∀ nv ov, cacheGet c name = some (.num ov) →
        (_changed eps c name (.num nv)).1 = absDiffGe eps nv ov) ∧
    (∀ v old, cacheGet c name = some old →
        (v.isNumeric = false ∨ old.isNumeric = false) →
        (_changed eps c name v).1 = !(pyEq v old)) ∧
    (∀ v, (_changed eps c name v).2 =
        if (_changed eps c name v).1 then cacheSet c name v else c) := by
  refine ⟨fun v h => changed_miss eps c name v h, fun nv ov h => ?_,
          fun v old h hno => ?_, fun v => changed_cache_update eps c name v⟩
  · rw [changed_num eps c name nv ov h]
  · rw [changed_nonnum eps c name v old h hno]

theorem changed_reference_policy_witness :
    _changed (1/1000) [] "k" (.str "a") = (true, cacheSet [] "k" (.str "a")) ∧
    (_changed (1/1000) [("k", PyVal.num (.fin 5))] "k" (.num (.fin 6))).1 =
      absDiffGe (1/1000) (.fin 6) (.fin 5) ∧
    (_changed (1/1000) [("k", PyVal.str "a")] "k" (.str "b")).1 =
      !(pyEq (.str "b") (.str "a")) :=
  ⟨(changed_reference_policy (1/1000) [] "k").1 _ rfl,
   (changed_reference_policy (1/1000) [("k", PyVal.num (.fin 5))] "k").2.1 _ _
     (by simp [cacheGet]),
   (changed_reference_policy (1/1000) [("k", PyVal.str "a")] "k").2.2.1 _ _
     (by simp [cacheGet]) (Or.inl rfl)⟩

/-- C10: once the cached value of a key is NaN, `_changed` returns
false for every subsequent numeric value (NaN or finite) and never
updates the cache; consequently, with `PUBLISH_CHANGED_ONLY` enabled, a
key whose cache holds NaN is never published again as long as its
readings remain numeric. -/
theorem nan_cache_blocks_numeric (eps : ℚ) (c : Cache) (name : String)
    (h : cacheGet c name = some (.num .nan)) :
    (∀ nv : NumVal, _changed eps c name (.num nv) = (false, c)) ∧
    (∀ vs : List NumVal, runKeyReads eps c name (vs.map PyVal.num) = (c, [])) := by
  refine ⟨fun nv => changed_nan_cache eps c name nv h, fun vs => ?_⟩
  induction vs with
  | nil => rfl
  | cons v rest ih =>
      simp only [List.map_cons, runKeyReads, _safe_read_and_publish,
        changed_nan_cache eps c name v h]
      simp [ih]

theorem nan_cache_blocks_numeric_witness :
    _changed (1/1000) [("k", PyVal.num .nan)] "k" (.num (.fin 7)) =
      (false, [("k", PyVal.num .nan)]) ∧
    runKeyReads (1/1000) [("k", PyVal.num .nan)] "k"
      ([NumVal.fin 7, .nan, .fin 3].map PyVal.num) =
      ([("k", PyVal.num .nan)], []) :=
  ⟨(nan_cache_blocks_numeric (1/1000) [("k", PyVal.num .nan)] "k"
      (by simp [cacheGet])).1 _,
   (nan_cache_blocks_numeric (1/1000) [("k", PyVal.num .nan)] "k"
      (by simp [cacheGet])).2 _⟩

/-! ### Per-read error absorption -/

theorem processKeys_length (eps : ℚ) (co : Bool)
    (ks : List (String × Except String PyVal)) :
    ∀ c, ((processKeys eps co c ks).2.1).length = ks.length := by
  induction ks with
  | nil => intro c; rfl
  | cons p rest ih =>
      intro c
      obtain ⟨key, r⟩ := p
      simp [processKeys, ih]

/-- C9: a per-measurement read failure never escalates out of the
per-key read step: `_safe_read_and_publish` is a total function that,
when the read raised with message `msg`, returns
`(False, suspected-conflict)` with the cache untouched and nothing
published; on a successful read it returns `(True, False)`; and the
per-cycle loop produces one result per configured key, so a failing key
is skipped while the cycle continues with the remaining keys. -/
theorem safe_read_never_escalates (eps : ℚ) (co : Bool) (c : Cache) (key : String) :
    (∀ msg, _safe_read_and_publish eps co c key (.error msg) =
        ((false, suspectedConflict msg), c, [])) ∧
    (∀ v, (_safe_read_and_publish eps co c key (.ok v)).1 = (true, false)) ∧
    (∀ ks c0, ((processKeys eps co c0 ks).2.1).length = ks.length) := by
  refine ⟨fun msg => rfl, fun v => ?_, fun ks c0 => processKeys_length eps co ks c0⟩
  cases co with
  | false => rfl
  | true =>
      show ((if (_changed eps c key v).1 then _ else _ :
        (Bool × Bool) × Cache × List PubEvent)).1 = (true, false)
      split <;> rfl

/-! ### Reconnect trigger -/

theorem afterReads_failures_lt (k : ℕ) :
    ∀ s : SchedState, s.consecutive_fail_reads + k < 6 →
    afterReads FAIL_RECONNECT_THRESHOLD s (List.replicate k false) =
      { s with fail := s.fail + k,
               consecutive_fail_reads := s.consecutive_fail_reads + k } := by
  induction k with
  | zero => intro s _; simp [afterReads]
  | succ k ih =>
      intro s h
      have h1 : ¬ (FAIL_RECONNECT_THRESHOLD ≤ s.consecutive_fail_reads + 1) := by
        simp only [FAIL_RECONNECT_THRESHOLD]; omega
      rw [List.replicate_succ]
      have hstep : afterRead FAIL_RECONNECT_THRESHOLD s false =
          { s with fail := s.fail + 1,
                   consecutive_fail_reads := s.consecutive_fail_reads + 1 } := by
        simp [afterRead, h1]
      have hcons : afterReads FAIL_RECONNECT_THRESHOLD s
          (false :: List.replicate k false) =
          afterReads FAIL_RECONNECT_THRESHOLD
            (afterRead FAIL_RECONNECT_THRESHOLD s false)
            (List.replicate k false) := rfl
      rw [hcons, hstep, ih _ (by simp; omega)]
      simp only [SchedState.mk.injEq]
      simp
      omega

/-- C5: with `FAIL_RECONNECT_THRESHOLD = 6`, a run of six consecutive
read failures starting with a zero consecutive-failure counter performs
exactly one `_reconnect_huawei` call and leaves the counter at zero;
any shorter run of failures performs none; and any successful read
resets the counter to zero. -/
theorem six_failures_trigger_one_reconnect (s : SchedState)
    (h : s.consecutive_fail_reads = 0) :
    afterReads FAIL_RECONNECT_THRESHOLD s (List.replicate 6 false) =
      { s with fail := s.fail + 6, consecutive_fail_reads := 0,
               reconnects := s.reconnects + 1 } ∧
    (∀ k, k < 6 →
        afterReads FAIL_RECONNECT_THRESHOLD s (List.replicate k false) =
          { s with fail := s.fail + k, consecutive_fail_reads := k }) ∧
    (∀ t : SchedState,
        (afterRead FAIL_RECONNECT_THRESHOLD t true).consecutive_fail_reads = 0) := by
  refine ⟨?_, fun k hk => ?_, fun t => ?_⟩
  · have h5 : afterReads FAIL_RECONNECT_THRESHOLD s (List.replicate 5 false) =
        { s with fail := s.fail + 5, consecutive_fail_reads := 5 } := by
      have := afterReads_failures_lt 5 s (by omega)
      simpa [h] using this
    have hsplit : (List.replicate 6 false) =
        (List.replicate 5 false) ++ [false] := by decide
    rw [hsplit]
    have happ : afterReads FAIL_RECONNECT_THRESHOLD s
        ((List.replicate 5 false) ++ [false]) =
        afterReads FAIL_RECONNECT_THRESHOLD
          (afterReads FAIL_RECONNECT_THRESHOLD s (List.replicate 5 false))
          [false] := by
      simp [afterReads]
    rw [happ, h5]
    simp [afterReads, afterRead, FAIL_RECONNECT_THRESHOLD]
  · have := afterReads_failures_lt k s (by omega)
    simpa [h] using this
  · simp [afterRead, FAIL_RECONNECT_THRESHOLD]

theorem six_failures_trigger_one_reconnect_witness :
    afterReads FAIL_RECONNECT_THRESHOLD ⟨0, 0, 0, 0⟩ (List.replicate 6 false) =
      (⟨0, 0, 6, 1⟩ : SchedState) :=
  (six_failures_trigger_one_reconnect ⟨0, 0, 0, 0⟩ rfl).1

/-! ### Poll-scheduler order and counting -/

theorem schedTrace_shape (imm per : List String) (n : ℕ) :
    ∀ (m tick : ℕ) (c : List String),
      c ∈ schedTrace imm per n tick m → c = imm ∨ c = imm ++ per := by
  intro m
  induction m with
  | zero => intro tick c hc; simp [schedTrace] at hc
  | succ m ih =>
      intro tick c hc
      have hstep : schedTrace imm per n tick (m + 1) =
          (cycleKeys imm per n tick).1 ::
            schedTrace imm per n (cycleKeys imm per n tick).2 m := rfl
      rw [hstep, List.mem_cons] at hc
      rcases hc with rfl | hc
      · by_cases hn : n ≤ tick + 1
        · right; simp [cycleKeys, hn]
        · left; simp [cycleKeys, hn]
      · exact ih _ c hc

theorem schedTrace_block (imm per : List String) (n : ℕ) :
    ∀ (m j rest : ℕ), 1 ≤ m → j + m = n →
    schedTrace imm per n j (m + rest) =
      (List.replicate (m - 1) imm ++ [imm ++ per]) ++
        schedTrace imm per n 0 rest := by
  intro m
  induction m with
  | zero => intro j rest h1 _; omega
  | succ m ih =>
      intro j rest h1 hj
      rcases Nat.eq_zero_or_pos m with hm0 | hmpos
      · subst hm0
        have hn : n ≤ j + 1 := by omega
        have hrw : 1 + rest = rest + 1 := by omega
        rw [hrw]
        simp only [schedTrace, cycleKeys, hn, if_pos]
        simp
      · have hn : ¬ (n ≤ j + 1) := by omega
        have hrw : m + 1 + rest = (m + rest) + 1 := by omega
        rw [hrw]
        simp only [schedTrace, cycleKeys, hn, if_neg, not_false_iff]
        rw [ih (j + 1) rest hmpos (by omega)]
        have hm : m + 1 - 1 = (m - 1) + 1 := by omega
        rw [hm, List.replicate_succ]
        simp

theorem schedTrace_two_periods (imm per : List String) (n : ℕ) (h : 1 ≤ n) :
    schedTrace imm per n 0 (2 * n) =
      (List.replicate (n - 1) imm ++ [imm ++ per]) ++
        (List.replicate (n - 1) imm ++ [imm ++ per]) := by
  have h2 : 2 * n = n + n := by omega
  rw [h2, schedTrace_block imm per n n 0 n h (by omega)]
  have h3 : n = n + 0 := by omega
  rw [show schedTrace imm per n 0 n =
        schedTrace imm per n 0 (n + 0) from by rw [← h3]]
  rw [schedTrace_block imm per n n 0 0 h (by omega)]
  simp [schedTrace]

theorem countReads_append (k : String) (a b : List (List String)) :
    countReads k (a ++ b) = countReads k a + countReads k b := by
  induction a with
  | nil => simp [countReads]
  | cons c rest ih => simp [countReads, ih]; omega

theorem countReads_replicate (k : String) (n : ℕ) (c : List String) :
    countReads k (List.replicate n c) = n * c.count k := by
  induction n with
  | zero => simp [countReads]
  | succ n ih =>
      rw [List.replicate_succ]
      simp [countReads, ih]
      ring

/-- C6: in every poll cycle the frequent set is read exactly in
configured order, and the periodic set, when triggered, is appended
after all frequent reads (each cycle's read list is `imm` or
`imm ++ per`); over `2 * n` consecutive cycles from the initial
scheduler state (`periodic_tick = 0`) a key occurring once in the
periodic list and not in the frequent list is read exactly twice, one
occurring once in the frequent list and not in the periodic list
exactly `2 * n` times. -/
theorem scheduler_order_and_counts (imm per : List String) (n : ℕ) (h : 1 ≤ n) :
    (∀ (tick m : ℕ) (c : List String),
        c ∈ schedTrace imm per n tick m → c = imm ∨ c = imm ++ per) ∧
    (∀ k, countReads k (schedTrace imm per n 0 (2 * n)) =
        2 * n * imm.count k + 2 * per.count k) ∧
    (∀ k, imm.count k = 1 → per.count k = 0 →
        countReads k (schedTrace imm per n 0 (2 * n)) = 2 * n) ∧
    (∀ k, imm.count k = 0 → per.count k = 1 →
        countReads k (schedTrace imm per n 0 (2 * n)) = 2) := by
  have hcount : ∀ k, countReads k (schedTrace imm per n 0 (2 * n)) =
      2 * n * imm.count k + 2 * per.count k := by
    intro k
    rw [schedTrace_two_periods imm per n h]
    rw [countReads_append, countReads_append, countReads_replicate]
    simp [countReads, List.count_append]
    obtain ⟨n', rfl⟩ : ∃ n', n = n' + 1 := ⟨n - 1, by omega⟩
    simp only [Nat.add_sub_cancel]
    ring
  refine ⟨fun tick m c hc => schedTrace_shape imm per n m tick c hc,
          hcount, fun k h1 h0 => ?_, fun k h0 h1 => ?_⟩
  · rw [hcount k, h1, h0]; ring
  · rw [hcount k, h0, h1]; ring

theorem scheduler_order_and_counts_witness :
    countReads "a" (schedTrace ["a"] ["p"] 2 0 4) = 4 ∧
    countReads "p" (schedTrace ["a"] ["p"] 2 0 4) = 2 := by
  have h := scheduler_order_and_counts ["a"] ["p"] 2 (by norm_num)
  constructor
  · have := h.2.2.1 "a" (by decide) (by decide)
    simpa using this
  · have := h.2.2.2 "p" (by decide) (by decide)
    simpa using this

/-! ### Conflict cooldown -/

/-- C3 counterexample: with the default configuration
(`COOLDOWN_ON_CONFLICT_S = 5.0`, `READ_INTERVAL = 1.2`), a cycle that
flagged one conflict is NOT followed by a sleep equal to the cooldown
alone: `main.py` sleeps the cooldown and then additionally sleeps the
normal inter-cycle interval, so the inter-cycle sleeps are
`[5, 1.2]`, not `[5]`. -/
theorem conflict_cooldown_counterexample :
    cycleEndSleeps 5 (6/5) 1 ≠ [(5 : ℚ)] := by
  simp [cycleEndSleeps]

/-- C3 amended: a cycle with at least one flagged conflict is followed
by a sleep of the configured cooldown and then, in addition, the normal
inter-cycle interval; a cycle with no flagged conflicts is followed by
the normal inter-cycle interval only. -/
theorem conflict_cooldown_in_addition (cooldown interval : ℚ) (k : ℕ) :
    cycleEndSleeps cooldown interval k =
      if 0 < k then [cooldown, interval] else [interval] := by
  unfold cycleEndSleeps
  split <;> simp

/-! ### Backoff Policy -/

/-- C4: for every sequence of consecutive connect failures the retry
delay is non-decreasing, at most doubles per failure, and stays within
`[1, 60]`; a success resets it to 1; and the fixed delay tuple
`(1,2,4,8,16,30)` of `main.py` satisfies the same bounds. -/
theorem backoff_delay_invariants :
    (∀ d, 1 ≤ d → d ≤ 60 →
        1 ≤ nextBackoff d ∧ nextBackoff d ≤ 60 ∧ d ≤ nextBackoff d ∧
          nextBackoff d ≤ d * 2) ∧
    (∀ n, 1 ≤ backoffSeq n ∧ backoffSeq n ≤ 60 ∧
        backoffSeq n ≤ backoffSeq (n + 1)) ∧
    (∀ d trace, 1 ≤ d → d ≤ 60 →
        1 ≤ delayTrace d trace ∧ delayTrace d trace ≤ 60) ∧
    (∀ d trace, delayTrace d (trace ++ [true]) = 1) ∧
    backoffListOk mainBackoffs = true := by
  have hstep : ∀ d, 1 ≤ d → d ≤ 60 →
      1 ≤ nextBackoff d ∧ nextBackoff d ≤ 60 ∧ d ≤ nextBackoff d ∧
        nextBackoff d ≤ d * 2 := by
    intro d h1 h2
    unfold nextBackoff
    omega
  have hseq : ∀ n, 1 ≤ backoffSeq n ∧ backoffSeq n ≤ 60 := by
    intro n
    induction n with
    | zero => exact ⟨le_refl 1, by norm_num [backoffSeq]⟩
    | succ n ih =>
        have h := hstep (backoffSeq n) ih.1 ih.2
        exact ⟨h.1, h.2.1⟩
  have htrace : ∀ trace d, 1 ≤ d → d ≤ 60 →
      1 ≤ delayTrace d trace ∧ delayTrace d trace ≤ 60 := by
    intro trace
    induction trace with
    | nil => intro d h1 h2; exact ⟨h1, h2⟩
    | cons okr rest ih =>
        intro d h1 h2
        cases okr with
        | true => exact ih 1 (le_refl 1) (by norm_num)
        | false =>
            have h := hstep d h1 h2
            exact ih (nextBackoff d) h.1 h.2.1
  have hreset : ∀ trace d, delayTrace d (trace ++ [true]) = 1 := by
    intro trace
    induction trace with
    | nil => intro d; rfl
    | cons okr rest ih => intro d; exact ih _
  refine ⟨hstep, fun n => ⟨(hseq n).1, (hseq n).2, ?_⟩,
          fun d trace h1 h2 => htrace trace d h1 h2,
          fun d trace => hreset trace d, by decide⟩
  have h := hstep (backoffSeq n) (hseq n).1 (hseq n).2
  exact h.2.2.1

theorem backoff_delay_invariants_witness :
    (1 ≤ nextBackoff 16 ∧ nextBackoff 16 ≤ 60 ∧ 16 ≤ nextBackoff 16 ∧
      nextBackoff 16 ≤ 16 * 2) ∧
    (1 ≤ delayTrace 1 [false, false, false] ∧
      delayTrace 1 [false, false, false] ≤ 60) :=
  ⟨backoff_delay_invariants.1 16 (by norm_num) (by norm_num),
   backoff_delay_invariants.2.2.1 1 [false, false, false] (by norm_num)
     (by norm_num)⟩

/-! ### Instance lock -/

/-- C7: if the lock file is already `flock`-ed by another process,
`acquire_lock` exits the process immediately with status 1 (non-zero)
and performs no retry; if the lock is free, acquisition succeeds and
records the acquiring pid in the lock file.  `main.py` keeps the
returned descriptor in the module-level `LOCK_FD` and contains no code
releasing it, so the handle is held until process exit. -/
theorem instance_lock_fatal_or_acquire (st : LockFileState) (pid : ℕ) :
    ((∃ q, st.holder = some q) →
        acquire_lock st pid = .exited 1 ∧ (1 : ℕ) ≠ 0) ∧
    (st.holder = none →
        acquire_lock st pid = .acquired ⟨some pid, some pid⟩) := by
  constructor
  · rintro ⟨q, hq⟩
    refine ⟨?_, by norm_num⟩
    unfold acquire_lock
    rw [hq]
  · intro hfree
    unfold acquire_lock
    rw [hfree]

theorem instance_lock_fatal_or_acquire_witness :
    acquire_lock ⟨some 41, some 41⟩ 99 = .exited 1 ∧
    acquire_lock ⟨none, none⟩ 99 = .acquired ⟨some 99, some 99⟩ :=
  ⟨((instance_lock_fatal_or_acquire ⟨some 41, some 41⟩ 99).1 ⟨41, rfl⟩).1,
   (instance_lock_fatal_or_acquire ⟨none, none⟩ 99).2 rfl⟩

/-! ### Endpoint-connect retry behaviour -/

/-- C1 counterexample: when every connect attempt fails, `main.py`'s
`mqtt_connect_blocking` and `_connect_huawei_sync` both terminate with
an error (`raise RuntimeError`) after exactly their six attempts — the
process DOES give up on the endpoint after a finite number of failed
attempts. -/
theorem connect_gives_up_counterexample :
    mqtt_connect_blocking (fun _ => false) = .error () ∧
    _connect_huawei_sync (fun _ => false) = .error () :=
  ⟨rfl, rfl⟩

theorem connectLoopFuel_reaches (outcome : ℕ → Bool) :
    ∀ (fuel i b m : ℕ), m < fuel → outcome (i + m) = true →
    ∃ j bb, i ≤ j ∧ j ≤ i + m ∧
      connectLoopFuel outcome b i fuel = some (j, bb) := by
  intro fuel
  induction fuel with
  | zero => intro i b m hm _; omega
  | succ fuel ih =>
      intro i b m hm hk
      by_cases h0 : outcome i = true
      · exact ⟨i, b, le_refl i, by omega, by simp [connectLoopFuel, h0]⟩
      · cases m with
        | zero => simp at hk; exact absurd hk h0
        | succ m' =>
            have hk' : outcome (i + 1 + m') = true := by
              have : i + 1 + m' = i + (m' + 1) := by omega
              rw [this]; exact hk
            obtain ⟨j, bb, hj1, hj2, heq⟩ :=
              ih (i + 1) (nextBackoff b) m' (by omega) hk'
            refine ⟨j, bb, by omega, by omega, ?_⟩
            simpa [connectLoopFuel, h0] using heq

/-- C1 amended: in `main.py` the connect routines for both endpoints
retry over the fixed six-element delay tuple only and raise
`RuntimeError` once all six attempts have failed, so the cited code does
give up after six consecutive failures; the asynchronous connect loops
in `huawei_mqtt.py`, in contrast, retry without bound: however many
consecutive failures precede the first successful attempt, the loop
reaches it and returns it. -/
theorem connect_retry_bounded_vs_unbounded :
    (∀ outcome : ℕ → Bool, (∀ j, j < 6 → outcome j = false) →
        mqtt_connect_blocking outcome = .error () ∧
        _connect_huawei_sync outcome = .error ()) ∧
    (∀ (outcome : ℕ → Bool) (k : ℕ), outcome k = true →
        ∃ j b, j ≤ k ∧ connectLoopFuel outcome 1 0 (k + 1) = some (j, b)) := by
  constructor
  · intro outcome h
    have h0 := h 0 (by norm_num)
    have h1 := h 1 (by norm_num)
    have h2 := h 2 (by norm_num)
    have h3 := h 3 (by norm_num)
    have h4 := h 4 (by norm_num)
    have h5 := h 5 (by norm_num)
    constructor <;>
      simp [mqtt_connect_blocking, _connect_huawei_sync, tryConnectFinite,
        mainBackoffs, h0, h1, h2, h3, h4, h5]
  · intro outcome k hk
    obtain ⟨j, b, _, hj2, heq⟩ :=
      connectLoopFuel_reaches outcome (k + 1) 0 1 k (by omega) (by simpa using hk)
    exact ⟨j, b, by omega, heq⟩

theorem connect_retry_bounded_vs_unbounded_witness :
    (mqtt_connect_blocking (fun _ => false) = .error () ∧
      _connect_huawei_sync (fun _ => false) = .error ()) ∧
    ∃ j b, j ≤ 9 ∧
      connectLoopFuel (fun i => decide (i = 9)) 1 0 10 = some (j, b) :=
  ⟨connect_retry_bounded_vs_unbounded.1 (fun _ => false) (fun _ _ => rfl),
   connect_retry_bounded_vs_unbounded.2 (fun i => decide (i = 9)) 9 (by decide)⟩

/-! ### Status topic -/

theorem hmRetryPublishes_cases (outcome : ℕ → Bool) :
    ∀ fuel i, hmRetryPublishes outcome i fuel = [] ∨
      hmRetryPublishes outcome i fuel =
        [.publish ⟨statusTopic, "online", 1, true⟩] := by
  intro fuel
  induction fuel with
  | zero => intro i; left; rfl
  | succ fuel ih =>
      intro i
      by_cases h0 : outcome i = true
      · right; simp [hmRetryPublishes, h0]
      · have := ih (i + 1)
        simpa [hmRetryPublishes, h0] using this

theorem hmRetryPublishes_success (outcome : ℕ → Bool) :
    ∀ (fuel i m : ℕ), m < fuel → outcome (i + m) = true →
      BrokerEvent.publish ⟨statusTopic, "online", 1, true⟩ ∈
        hmRetryPublishes outcome i fuel := by
  intro fuel
  induction fuel with
  | zero => intro i m hm _; omega
  | succ fuel ih =>
      intro i m hm hk
      by_cases h0 : outcome i = true
      · simp [hmRetryPublishes, h0]
      · cases m with
        | zero => simp at hk; exact absurd hk h0
        | succ m' =>
            have hk' : outcome (i + 1 + m') = true := by
              have : i + 1 + m' = i + (m' + 1) := by omega
              rw [this]; exact hk
            have := ih (i + 1) m' (by omega) hk'
            simpa [hmRetryPublishes, h0] using this

/-- C8 counterexample: in `main.py`, the message published to the
status topic upon a successful broker connect has payload
`"online ✅"`, not `"online"`: with an immediately succeeding connect,
the event list of `mqtt_connect_blocking` contains a retained publish
with payload `"online ✅"` and no publish whatsoever with payload
`"online"`; and `main.py` emits no `"offline"` publish on graceful
shutdown (`mainShutdownEvents = []`). -/
theorem status_online_payload_counterexample :
    BrokerEvent.publish ⟨statusTopic, "online ✅", 1, true⟩ ∈
      mqtt_connect_blocking_events (fun _ => true) "h" ∧
    (∀ e ∈ mqtt_connect_blocking_events (fun _ => true) "h",
        e ≠ .publish ⟨statusTopic, "online", 1, true⟩) ∧
    mainShutdownEvents = [] := by
  refine ⟨?_, ?_, rfl⟩
  · simp [mqtt_connect_blocking_events, mqtt_connect_blocking,
      tryConnectFinite, mainBackoffs]
  · intro e he
    simp [mqtt_connect_blocking_events, mqtt_connect_blocking,
      tryConnectFinite, mainBackoffs] at he
    rcases he with rfl | rfl | rfl <;> simp

/-- C8 amended: the retained last-will `"offline"` is registered on the
status topic before any connect attempt in both programs; upon a
successful connect, `huawei_mqtt.py` publishes exactly one retained
`"online"` to the status topic (and none before success), while
`main.py` publishes a retained `"online ✅"`; on graceful shutdown
`huawei_mqtt.py`'s `_run_once` publishes a retained `"offline"` to the
same topic, whereas `main.py` publishes nothing on shutdown. -/
theorem status_topic_events (outcome : ℕ → Bool) (hp : String) :
    (mqtt_connect_blocking_events outcome hp).head? =
      some (.willSet ⟨statusTopic, "offline", 1, true⟩) ∧
    (∀ fuel, (_connect_mqtt_with_retries_events outcome fuel).head? =
      some (.willSet ⟨statusTopic, "offline", 1, true⟩)) ∧
    (∀ e, mqtt_connect_blocking outcome = .ok e →
        BrokerEvent.publish ⟨statusTopic, "online ✅", 1, true⟩ ∈
          mqtt_connect_blocking_events outcome hp) ∧
    (∀ fuel m, m < fuel → outcome m = true →
        BrokerEvent.publish ⟨statusTopic, "online", 1, true⟩ ∈
          _connect_mqtt_with_retries_events outcome fuel) ∧
    (∀ fuel,
        ((_connect_mqtt_with_retries_events outcome fuel).filter
          (fun e => e == .publish ⟨statusTopic, "online", 1, true⟩)).length ≤ 1) ∧
    _run_once_shutdown_events = [.publish ⟨statusTopic, "offline", 1, true⟩] ∧
    mainShutdownEvents = [] := by
  refine ⟨rfl, fun fuel => rfl, fun e he => ?_, fun fuel m hm hk => ?_,
          fun fuel => ?_, rfl, rfl⟩
  · simp [mqtt_connect_blocking_events, he]
  · have := hmRetryPublishes_success outcome fuel 0 m hm (by simpa using hk)
    simp [_connect_mqtt_with_retries_events]
    exact this
  · rcases hmRetryPublishes_cases outcome fuel 0 with h | h
    · unfold _connect_mqtt_with_retries_events
      rw [h]
      decide
    · unfold _connect_mqtt_with_retries_events
      rw [h]
      decide

theorem status_topic_events_witness :
    BrokerEvent.publish ⟨statusTopic, "online ✅", 1, true⟩ ∈
      mqtt_connect_blocking_events (fun _ => true) "h" ∧
    BrokerEvent.publish ⟨statusTopic, "online", 1, true⟩ ∈
      _connect_mqtt_with_retries_events (fun _ => true) 1 :=
  ⟨(status_topic_events (fun _ => true) "h").2.2.1 0 rfl,
   (status_topic_events (fun _ => true) "h").2.2.2.1 1 0 (by norm_num) rfl⟩
